import Mathlib

/-!
Verification of the Jito-Shredstream-Sniper core against its specification.

The Rust sources are shallowly embedded:
* machine integers (`u64`, `usize`) become `Nat` with explicit saturation /
  wrap where the source relies on it;
* fallible paths return `Except`/`Option`, and the distinguished results
  `ParseResult.panicked` / `HeaderScan.panicked` mark control paths on which
  the Rust program aborts (integer-overflow panic in debug builds,
  out-of-bounds index or slice panic in release builds);
* the per-token reserve map, the Redis-backed sell queue and the
  blockhash cache become explicit functional state.
-/

namespace Sniper

/-- Number of values of a `u64`; a `u64` is a `Nat` strictly below this. -/
def U64LIMIT : Nat := 2 ^ 64

/-- Rust `u64::saturating_add` on values below `U64LIMIT`. -/
def satAdd64 (a b : Nat) : Nat := min (a + b) (U64LIMIT - 1)

/-- Per-token virtual reserve state, `src/processor/mod.rs` lines 12-15. -/
structure TokenReserves where
  virtual_sol_reserves : Nat
  virtual_token_reserves : Nat
deriving DecidableEq

/-- The reserve update performed for a buy event on a token with existing
state, `src/processor/mod.rs` lines 160-170: `saturating_add` of the sol
amount on the sol side; on the token side the subtraction is guarded by
`token_amount <= reserves.virtual_token_reserves`, and skipped (state left
unchanged) when the guard fails. -/
def onBuyUpdate (r : TokenReserves) (tokenAmount solAmount : Nat) : TokenReserves :=
  { virtual_sol_reserves := satAdd64 r.virtual_sol_reserves solAmount,
    virtual_token_reserves :=
      if tokenAmount ≤ r.virtual_token_reserves then
        r.virtual_token_reserves - tokenAmount
      else
        r.virtual_token_reserves }

/-- A finite sequence of buy events `(token_amount, sol_amount)` applied in
order to a token's reserve state. -/
def applyBuys (r : TokenReserves) (evs : List (Nat × Nat)) : TokenReserves :=
  evs.foldl (fun s e => onBuyUpdate s e.1 e.2) r

/-- Initial virtual reserves seeded on the first create event for a mint,
`src/processor/mod.rs` lines 88-89. -/
def initialReserves : TokenReserves :=
  { virtual_sol_reserves := 30000000000, virtual_token_reserves := 1073000000000000 }

/-- The processor's `HashMap<String, TokenReserves>` modelled as an
association list with unique keys maintained by the operations. -/
abbrev ReservesMap := List (String × TokenReserves)

/-- `HashMap::contains_key` on the reserve map. -/
def containsMint (m : ReservesMap) (mint : String) : Bool :=
  m.any (fun p => p.1 == mint)

/-- `HashMap::get` on the reserve map. -/
def lookupReserves (m : ReservesMap) (mint : String) : Option TokenReserves :=
  (m.find? (fun p => p.1 == mint)).map Prod.snd

/-- Handling of a decoded create event, `src/processor/mod.rs` lines 86-95:
insert the seed reserves only when the mint has no entry yet. -/
def onCreate (m : ReservesMap) (mint : String) : ReservesMap :=
  if containsMint m mint then m else m ++ [(mint, initialReserves)]

/-- `AutoTrader::should_snipe`, `src/utils/auto_trader.rs` lines 280-282:
`sol_amount >= self.min_sol_price && sol_amount <= self.max_sol_price`.
A pure function of the two configured bounds and the observed amount. -/
def shouldSnipe (minSolPrice maxSolPrice solAmount : Nat) : Bool :=
  decide (minSolPrice ≤ solAmount) && decide (solAmount ≤ maxSolPrice)

/-! ### Instruction decoding, `src/instruction/mod.rs` -/

/-- Little-endian interpretation of a byte list. -/
def leNat : List Nat → Nat
  | [] => 0
  | b :: bs => b + 256 * leNat bs

/-- The four little-endian bytes of a `u32`. -/
def encodeU32LE (n : Nat) : List Nat :=
  [n % 256, n / 256 % 256, n / 65536 % 256, n / 16777216 % 256]

/-- The eight little-endian bytes of a `u64`. -/
def encodeU64LE (n : Nat) : List Nat :=
  [n % 256, n / 256 % 256, n / 65536 % 256, n / 16777216 % 256,
   n / 4294967296 % 256, n / 1099511627776 % 256,
   n / 281474976710656 % 256, n / 72057594037927936 % 256]

/-- Rust slice `data[off..off+len]` (reads are always bounds-checked in the
source before slicing). -/
def sliceList (xs : List Nat) (off len : Nat) : List Nat :=
  (xs.drop off).take len

/-- Validity of a byte sequence as UTF-8, the acceptance criterion of Rust's
`String::from_utf8` (rejects continuation-byte errors, overlong forms,
surrogates and code points above U+10FFFF). -/
def utf8Valid : List Nat → Bool
  | [] => true
  | b :: rest =>
    if b ≤ 0x7F then utf8Valid rest
    else if b < 0xC2 then false
    else if b ≤ 0xDF then
      match rest with
      | [] => false
      | c1 :: r =>
        decide (0x80 ≤ c1) && decide (c1 ≤ 0xBF) && utf8Valid r
    else if b ≤ 0xEF then
      match rest with
      | c1 :: c2 :: r =>
        (decide ((if b = 0xE0 then 0xA0 else 0x80) ≤ c1)
          && decide (c1 ≤ if b = 0xED then 0x9F else 0xBF)
          && decide (0x80 ≤ c2) && decide (c2 ≤ 0xBF)) && utf8Valid r
      | _ => false
    else if b ≤ 0xF4 then
      match rest with
      | c1 :: c2 :: c3 :: r =>
        (decide ((if b = 0xF0 then 0x90 else 0x80) ≤ c1)
          && decide (c1 ≤ if b = 0xF4 then 0x8F else 0xBF)
          && decide (0x80 ≤ c2) && decide (c2 ≤ 0xBF)
          && decide (0x80 ≤ c3) && decide (c3 ≤ 0xBF)) && utf8Valid r
      | _ => false
    else false

/-- Borsh deserialization of a `String`: a `u32` little-endian length prefix
followed by that many UTF-8 bytes; returns the string bytes and the rest of
the buffer. -/
def borshString (bs : List Nat) : Option (List Nat × List Nat) :=
  match bs with
  | l0 :: l1 :: l2 :: l3 :: rest =>
    let n := l0 + 256 * (l1 + 256 * (l2 + 256 * l3))
    if rest.length < n then none
    else
      let s := rest.take n
      if utf8Valid s then some (s, rest.drop n) else none
  | _ => none

/-- `CreateArgs::try_from_slice`, `src/instruction/mod.rs` lines 6-11: three
Borsh strings (name, symbol, uri); `try_from_slice` fails unless the buffer
is fully consumed. -/
def borshCreateArgs (bs : List Nat) : Option (List Nat × List Nat × List Nat) :=
  match borshString bs with
  | none => none
  | some (name, r1) =>
    match borshString r1 with
    | none => none
    | some (symbol, r2) =>
      match borshString r2 with
      | none => none
      | some (uri, r3) => if r3 = [] then some (name, symbol, uri) else none

/-- `BuyArgs::try_from_slice`, `src/instruction/mod.rs` lines 14-18: two
little-endian `u64` values, buffer fully consumed. -/
def borshBuyArgs (bs : List Nat) : Option (Nat × Nat) :=
  if bs.length = 16 then some (leNat (bs.take 8), leNat ((bs.drop 8).take 8))
  else none

/-- `src/instruction/mod.rs` line 35. -/
def CREATE_EVENT_DISCRIMINATOR : List Nat := [0x18, 0x1e, 0xc8, 0x28, 0x05, 0x1c, 0x07, 0x77]

/-- `src/instruction/mod.rs` line 37. -/
def BUY_EVENT_DISCRIMINATOR : List Nat := [0x66, 0x06, 0x3d, 0x12, 0x01, 0xda, 0xeb, 0xea]

/-- Decoded instruction carried in the `Ok` result of
`parse_instruction_data`; string fields are kept as their UTF-8 byte lists
and the `Pubkey` as its 32 bytes. -/
inductive ParsedInstruction where
  | createEvent (name symbol uri user : List Nat)
  | buy (amount maxSolCost : Nat)
deriving DecidableEq

/-- Outcome of `parse_instruction_data`: the `(kind, instruction)` success
pair, an error message, or `panicked` for control paths on which the Rust
program aborts instead of returning. -/
inductive ParseResult where
  | ok (kind : String) (instr : ParsedInstruction)
  | err (msg : String)
  | panicked
deriving DecidableEq

/-- The manual cursor decode of the three create record fields, shared
verbatim between the Borsh-fallback arm (`src/instruction/mod.rs` lines
69-108) and the legacy first-byte-24 arm (lines 147-185): every read is
preceded by a bounds check naming the field; on success it returns the
fields and the final cursor offset. -/
def manualCreateFields (data : List Nat) : Except String (List Nat × List Nat × List Nat × Nat) :=
  if data.length < 12 then .error "Insufficient data for name length"
  else
    let nameLen := leNat (sliceList data 8 4)
    if data.length < 12 + nameLen then .error "Insufficient data for name"
    else if utf8Valid (sliceList data 12 nameLen) = false then
      .error "invalid utf-8 sequence"
    else
      let name := sliceList data 12 nameLen
      let o1 := 12 + nameLen
      if data.length < o1 + 4 then .error "Insufficient data for symbol length"
      else
        let symLen := leNat (sliceList data o1 4)
        if data.length < o1 + 4 + symLen then .error "Insufficient data for symbol"
        else if utf8Valid (sliceList data (o1 + 4) symLen) = false then
          .error "invalid utf-8 sequence"
        else
          let symbol := sliceList data (o1 + 4) symLen
          let o2 := o1 + 4 + symLen
          if data.length < o2 + 4 then .error "Insufficient data for URI length"
          else
            let uriLen := leNat (sliceList data o2 4)
            if data.length < o2 + 4 + uriLen then .error "Insufficient data for URI"
            else if utf8Valid (sliceList data (o2 + 4) uriLen) = false then
              .error "invalid utf-8 sequence"
            else
              let uri := sliceList data (o2 + 4) uriLen
              .ok (name, symbol, uri, o2 + 4 + uriLen)

/-- `parse_instruction_data`, `src/instruction/mod.rs` lines 39-209.
The create arm mirrors lines 50-57 exactly: when the Borsh decode succeeds,
`user_offset = data.len() - 32` is computed on `usize`; for payloads shorter
than 32 bytes that subtraction aborts the program (overflow panic in debug
builds; in release the wrapped offset passes the guard and the slice
`data[user_offset..user_offset + 32]` panics), modelled as `.panicked`. -/
def parseInstructionData (data : List Nat) : ParseResult :=
  if data.length < 8 then .err "Instruction data too short"
  else if data.take 8 = CREATE_EVENT_DISCRIMINATOR then
    match borshCreateArgs (data.drop 8) with
    | some (name, symbol, uri) =>
      if data.length < 32 then .panicked
      else
        let userOffset := data.length - 32
        let user :=
          if 8 ≤ userOffset ∧ userOffset + 32 ≤ data.length then
            sliceList data userOffset 32
          else
            List.replicate 32 0
        .ok "CreateEvent" (.createEvent name symbol uri user)
    | none =>
      match manualCreateFields data with
      | .error e => .err e
      | .ok (name, symbol, uri, off) =>
        if data.length < off + 32 then .err "Insufficient data for user pubkey"
        else .ok "CreateEvent" (.createEvent name symbol uri (sliceList data off 32))
  else if data.take 8 = BUY_EVENT_DISCRIMINATOR then
    match borshBuyArgs (data.drop 8) with
    | some (amount, cost) => .ok "Buy" (.buy amount cost)
    | none =>
      if data.length < 24 then .err "Insufficient data for Buy instruction"
      else .ok "Buy" (.buy (leNat (sliceList data 8 8)) (leNat (sliceList data 16 8)))
  else if data.head? = some 24 then
    match manualCreateFields data with
    | .error e => .err e
    | .ok (name, symbol, uri, _) =>
      .ok "CreateEvent" (.createEvent name symbol uri (List.replicate 32 0))
  else if data.head? = some 102 then
    if data.length < 24 then .err "Insufficient data for BuyTokens instruction"
    else .ok "Buy" (.buy (leNat (sliceList data 8 8)) (leNat (sliceList data 16 8)))
  else .err "Unknown instruction data"

/-- Result of the per-transaction header handling in
`process_message_v0` / `process_message_legacy`, `src/processor/mod.rs`
lines 55-66: after the `contains` filter passes, the code indexes
`transaction.signatures[0]`, `message.account_keys[1]` and
`message.account_keys[2]` unconditionally. -/
inductive HeaderScan where
  | skipped
  | header (firstSig mintAddress bondingCurve : String)
  | panicked
deriving DecidableEq

/-- The account-list filter and positional account extraction of
`process_message_v0`, `src/processor/mod.rs` lines 55-66; `.panicked` marks
the out-of-bounds index panics on transactions with no signature or with
fewer than three account keys. -/
def scanTransactionHeader (accountKeys signatures : List String) (target : String) : HeaderScan :=
  if target ∈ accountKeys then
    match signatures with
    | [] => .panicked
    | sig0 :: _ =>
      match accountKeys with
      | _ :: mintAddress :: bondingCurve :: _ => .header sig0 mintAddress bondingCurve
      | _ => .panicked
  else .skipped

/-! ### The structured encodings the decoder is meant to invert -/

/-- Borsh encoding of a string: `u32` little-endian byte length followed by
the UTF-8 bytes. -/
def encodeString (s : List Nat) : List Nat := encodeU32LE s.length ++ s

/-- A create payload built with the structured encoding: the 8-byte create
discriminator, three length-prefixed strings, and the 32-byte creator
suffix. -/
def encodeCreatePayload (name symbol uri creator : List Nat) : List Nat :=
  CREATE_EVENT_DISCRIMINATOR ++ encodeString name ++ encodeString symbol ++
    encodeString uri ++ creator

/-- A buy payload built with the structured encoding: the 8-byte buy
discriminator followed by two fixed-width little-endian `u64` values. -/
def encodeBuyPayload (amount cost : Nat) : List Nat :=
  BUY_EVENT_DISCRIMINATOR ++ encodeU64LE amount ++ encodeU64LE cost

/-- A 20-byte create payload: the discriminator followed by three Borsh
strings of length 0. `CreateArgs::try_from_slice` succeeds on it, and then
`data.len() - 32` underflows. -/
def c1PanicPayload : List Nat := CREATE_EVENT_DISCRIMINATOR ++ List.replicate 12 0

/-- A well-formed 55-byte create payload for name "A", symbol "B", uri "C"
and a creator of 32 nines (decoded through the manual fallback path, since
the trailing 32 creator bytes make `try_from_slice` reject the buffer). -/
def c5ValidCreatePayload : List Nat :=
  CREATE_EVENT_DISCRIMINATOR ++ encodeU32LE 1 ++ [0x41] ++ encodeU32LE 1 ++ [0x42] ++
    encodeU32LE 1 ++ [0x43] ++ List.replicate 32 9

/-- A well-formed 82-byte create payload whose uri is 28 bytes long, so that
truncating it to 50 bytes (dropping exactly the creator) leaves a payload on
which the Borsh decode succeeds and the last-32-byte window is extracted. -/
def c5WideCreatePayload : List Nat :=
  CREATE_EVENT_DISCRIMINATOR ++ encodeU32LE 1 ++ [0x41] ++ encodeU32LE 1 ++ [0x42] ++
    encodeU32LE 28 ++ List.replicate 28 0x43 ++ List.replicate 32 9

/-- A 52-byte create payload (empty name and symbol, 32-byte uri) on which
the Borsh decode succeeds; its last-32-byte window is exactly the uri
content, i.e. it overlaps the record fields. -/
def c4OverlapPayload : List Nat :=
  CREATE_EVENT_DISCRIMINATOR ++ encodeU32LE 0 ++ encodeU32LE 0 ++ encodeU32LE 32 ++
    List.replicate 32 7

/-- Payload of length 32 with successful Borsh decode: empty name and
symbol, 12-byte uri. The last-32-byte window starts at offset 0, inside the
discriminator, so the zero identifier is returned. -/
def c4WitnessPayload : List Nat :=
  CREATE_EVENT_DISCRIMINATOR ++ encodeU32LE 0 ++ encodeU32LE 0 ++ encodeU32LE 12 ++
    List.replicate 12 7

/-! ### Delayed-sell scheduler, `src/utils/redis.rs`

The two Redis structures are modelled as association lists; the sorted set
keeps one entry per member (Redis `ZADD` replaces the score of an existing
member). `zrangebyscore` returns the matching members in stored order — the
model abstracts Redis's score ordering, which the verified claims do not
depend on (they are about membership and multiplicity). Wall-clock time is
passed explicitly to each operation as a millisecond timestamp. -/

/-- State of the external Redis store: the `mints_to_sell` sorted set
(member, score = due time) and the `mint_amounts` hash. -/
structure RedisState where
  mintsToSell : List (String × Nat)
  mintAmounts : List (String × String)
deriving DecidableEq

/-- Redis `ZADD key score member`: replace the member's score, or append. -/
def zadd (zset : List (String × Nat)) (member : String) (score : Nat) : List (String × Nat) :=
  if zset.any (fun p => p.1 == member) then
    zset.map (fun p => if p.1 == member then (member, score) else p)
  else zset ++ [(member, score)]

/-- Redis `ZREM key member`. -/
def zrem (zset : List (String × Nat)) (member : String) : List (String × Nat) :=
  zset.filter (fun p => p.1 != member)

/-- Redis `ZRANGEBYSCORE key lo hi`: members whose score is in `[lo, hi]`. -/
def zrangebyscore (zset : List (String × Nat)) (lo hi : Nat) : List String :=
  (zset.filter (fun p => decide (lo ≤ p.2) && decide (p.2 ≤ hi))).map Prod.fst

/-- Redis `HSET key field value`: replace the field's value, or append. -/
def hset (h : List (String × String)) (field value : String) : List (String × String) :=
  if h.any (fun p => p.1 == field) then
    h.map (fun p => if p.1 == field then (field, value) else p)
  else h ++ [(field, value)]

/-- Redis `HGET key field`. -/
def hget (h : List (String × String)) (field : String) : Option String :=
  (h.find? (fun p => p.1 == field)).map Prod.snd

/-- `RedisClient::store_mint_with_amount`, `src/utils/redis.rs` lines 43-63:
`ZADD mints_to_sell (now + delay_ms) mint` and
`HSET mint_amounts mint (amount.to_string())`. -/
def storeMintWithAmount (st : RedisState) (mint : String) (amount : Nat) (delayMs now : Nat) :
    RedisState :=
  { mintsToSell := zadd st.mintsToSell mint (now + delayMs),
    mintAmounts := hset st.mintAmounts mint (toString amount) }

/-- `RedisClient::get_and_remove_mints_to_sell`, `src/utils/redis.rs` lines
116-139: read all members with score ≤ now, then `ZREM` each of them from
the sorted set. The `mint_amounts` hash is NOT touched. -/
def getAndRemoveMintsToSell (st : RedisState) (now : Nat) : List String × RedisState :=
  let mints := zrangebyscore st.mintsToSell 0 now
  if mints.isEmpty then ([], st)
  else (mints, { st with mintsToSell := mints.foldl (fun z m => zrem z m) st.mintsToSell })

/-! ### Blockhash cache, `src/utils/blockhash_cache.rs` -/

/-- Outcome of one `get_latest_blockhash` call: the returned anchor, the
cache state after the call, and the number of network fetches performed
during the call (0 or 1). -/
structure CacheGetResult where
  value : Nat
  state : Option (Nat × Nat)
  fetches : Nat
deriving DecidableEq

/-- `BlockhashCache::get_latest_blockhash`, `src/utils/blockhash_cache.rs`
lines 30-54: under the cache lock, return the cached anchor if its age is
strictly below `max_age`; otherwise fetch (the network's answer is the
`fresh` argument), store it with the current timestamp, and return it. -/
def getLatestBlockhash (maxAge : Nat) (st : Option (Nat × Nat)) (now fresh : Nat) :
    CacheGetResult :=
  match st with
  | some (h, ts) =>
    if now - ts < maxAge then ⟨h, some (h, ts), 0⟩
    else ⟨fresh, some (fresh, now), 1⟩
  | none => ⟨fresh, some (fresh, now), 1⟩

/-! ### Reserve-ledger lemmas -/

lemma satAdd64_ge (a b : Nat) (h : a < U64LIMIT) : a ≤ satAdd64 a b := by
  unfold satAdd64 U64LIMIT at *
  omega

lemma satAdd64_lt (a b : Nat) : satAdd64 a b < U64LIMIT := by
  unfold satAdd64 U64LIMIT
  omega

lemma onBuyUpdate_sol_lt (r : TokenReserves) (t c : Nat) :
    (onBuyUpdate r t c).virtual_sol_reserves < U64LIMIT :=
  satAdd64_lt _ _

lemma onBuyUpdate_sol_ge (r : TokenReserves) (t c : Nat)
    (h : r.virtual_sol_reserves < U64LIMIT) :
    r.virtual_sol_reserves ≤ (onBuyUpdate r t c).virtual_sol_reserves :=
  satAdd64_ge _ _ h

lemma onBuyUpdate_tok_le (r : TokenReserves) (t c : Nat) :
    (onBuyUpdate r t c).virtual_token_reserves ≤ r.virtual_token_reserves := by
  unfold onBuyUpdate
  dsimp only
  split <;> omega

lemma applyBuys_sol_lt (r : TokenReserves) (evs : List (Nat × Nat))
    (h : r.virtual_sol_reserves < U64LIMIT) :
    (applyBuys r evs).virtual_sol_reserves < U64LIMIT := by
  induction evs generalizing r with
  | nil => exact h
  | cons e rest ih => exact ih _ (onBuyUpdate_sol_lt _ _ _)

lemma applyBuys_sol_ge (r : TokenReserves) (evs : List (Nat × Nat))
    (h : r.virtual_sol_reserves < U64LIMIT) :
    r.virtual_sol_reserves ≤ (applyBuys r evs).virtual_sol_reserves := by
  induction evs generalizing r with
  | nil => exact le_refl _
  | cons e rest ih =>
      exact le_trans (onBuyUpdate_sol_ge _ _ _ h)
        (ih _ (onBuyUpdate_sol_lt _ _ _))

lemma applyBuys_tok_le (r : TokenReserves) (evs : List (Nat × Nat)) :
    (applyBuys r evs).virtual_token_reserves ≤ r.virtual_token_reserves := by
  induction evs generalizing r with
  | nil => exact le_refl _
  | cons e rest ih =>
      exact le_trans (ih _) (onBuyUpdate_tok_le _ _ _)

/-! ### Claim theorems: reserve ledger and snipe decision -/

/-- C3 (counterexample): the claim states that when the bought token amount
strictly exceeds the current `virtual_token_reserves`, the resulting
`virtual_token_reserves` is zero. On reserves of 5 tokens and a buy of 10
tokens the code leaves the reserves at 5, not 0: the guarded update at
`src/processor/mod.rs` lines 168-170 skips the subtraction entirely. -/
theorem c3_counterexample :
    (onBuyUpdate ⟨30000000000, 5⟩ 10 7).virtual_token_reserves ≠ 0 ∧
    (onBuyUpdate ⟨30000000000, 5⟩ 10 7).virtual_token_reserves = 5 := by
  constructor <;> decide

/-- C3 (amended): for every buy on a token with existing reserve state,
`virtual_sol_reserves` becomes the saturating addition of the observed sol
amount; `virtual_token_reserves` decreases by the observed token amount when
that amount is at most the current token reserves, and is left UNCHANGED
(not zeroed) when the token amount strictly exceeds the current reserves. -/
theorem c3_amended (r : TokenReserves) (tokenAmount solAmount : Nat) :
    (onBuyUpdate r tokenAmount solAmount).virtual_sol_reserves =
      min (r.virtual_sol_reserves + solAmount) (U64LIMIT - 1)
    ∧ (tokenAmount ≤ r.virtual_token_reserves →
        (onBuyUpdate r tokenAmount solAmount).virtual_token_reserves =
          r.virtual_token_reserves - tokenAmount)
    ∧ (r.virtual_token_reserves < tokenAmount →
        (onBuyUpdate r tokenAmount solAmount).virtual_token_reserves =
          r.virtual_token_reserves) := by
  refine ⟨rfl, fun h => ?_, fun h => ?_⟩
  · unfold onBuyUpdate
    dsimp only
    rw [if_pos h]
  · unfold onBuyUpdate
    dsimp only
    rw [if_neg (by omega)]

theorem c3_amended_witness :
    (onBuyUpdate ⟨1, 100⟩ 30 2).virtual_token_reserves = 70 :=
  (c3_amended ⟨1, 100⟩ 30 2).2.1 (by decide)

/-- C6: over any sequence of buy events (arbitrary magnitudes, including
token amounts exceeding the remaining reserves), `virtual_sol_reserves` is
non-decreasing, `virtual_token_reserves` is non-increasing, and token
reserves never go below zero. Stated for an arbitrary prefix `evs1` of the
sequence `evs1 ++ evs2`. -/
theorem c6_reserve_monotonicity (r : TokenReserves) (evs1 evs2 : List (Nat × Nat))
    (h : r.virtual_sol_reserves < U64LIMIT) :
    (applyBuys r evs1).virtual_sol_reserves ≤
      (applyBuys r (evs1 ++ evs2)).virtual_sol_reserves
    ∧ (applyBuys r (evs1 ++ evs2)).virtual_token_reserves ≤
      (applyBuys r evs1).virtual_token_reserves
    ∧ 0 ≤ (applyBuys r (evs1 ++ evs2)).virtual_token_reserves := by
  have hsplit : applyBuys r (evs1 ++ evs2) = applyBuys (applyBuys r evs1) evs2 := by
    unfold applyBuys
    exact List.foldl_append _ _ _ _
  rw [hsplit]
  exact ⟨applyBuys_sol_ge _ _ (applyBuys_sol_lt _ _ h),
    applyBuys_tok_le _ _, Nat.zero_le _⟩

theorem c6_reserve_monotonicity_witness :
    (applyBuys ⟨0, 10⟩ [(3, 4)]).virtual_sol_reserves ≤
      (applyBuys ⟨0, 10⟩ ([(3, 4)] ++ [(20, 5)])).virtual_sol_reserves :=
  (c6_reserve_monotonicity ⟨0, 10⟩ [(3, 4)] [(20, 5)] (by decide)).1

/-- C8: `should_snipe x` is true exactly when `min <= x <= max`, inclusive
on both ends; in particular it is false at `min - 1` (when `min ≥ 1`, so
that the value exists) and at `max + 1`. The embedding is a pure function
of the configured bounds, so it modifies no state. -/
theorem c8_decision_boundary (minP maxP x : Nat) :
    (shouldSnipe minP maxP x = true ↔ minP ≤ x ∧ x ≤ maxP)
    ∧ (1 ≤ minP → shouldSnipe minP maxP (minP - 1) = false)
    ∧ shouldSnipe minP maxP (maxP + 1) = false := by
  unfold shouldSnipe
  refine ⟨by simp, fun h => ?_, ?_⟩
  · simp only [Bool.and_eq_false_iff, decide_eq_false_iff_not]
    omega
  · simp only [Bool.and_eq_false_iff, decide_eq_false_iff_not]
    omega

theorem c8_decision_boundary_witness :
    shouldSnipe 5 10 4 = false :=
  (c8_decision_boundary 5 10 7).2.1 (by decide)

/-- C10: handling a create event for a mint that already has reserve state
leaves the reserve map unchanged (the seed values are not re-inserted), and
`onCreate` is idempotent. -/
theorem c10_onCreate_idempotent (m : ReservesMap) (mint : String) :
    (containsMint m mint = true → onCreate m mint = m)
    ∧ onCreate (onCreate m mint) mint = onCreate m mint := by
  constructor
  · intro h
    simp [onCreate, h]
  · by_cases h : containsMint m mint
    · simp [onCreate, h]
    · have h2 : containsMint (m ++ [(mint, initialReserves)]) mint = true := by
        simp [containsMint, List.any_append]
      simp [onCreate, h, h2]

theorem c10_onCreate_idempotent_witness :
    onCreate [("m1", ⟨7, 8⟩)] "m1" = [("m1", ⟨7, 8⟩)] :=
  (c10_onCreate_idempotent [("m1", ⟨7, 8⟩)] "m1").1 (by decide)

/-! ### Claim theorems: decoder panics and creator-window behaviour -/

/-- C1 (refutation of the no-panic claim): the decoder aborts on a 20-byte
create payload whose Borsh decode succeeds (`data.len() - 32` underflow /
out-of-bounds slice), and the per-transaction processing aborts on a
transaction whose account list contains the target identifier but which has
no signature, or fewer than three account keys. -/
theorem c1_totality_refuted :
    parseInstructionData c1PanicPayload = .panicked
    ∧ scanTransactionHeader ["target", "k1", "k2"] [] "target" = .panicked
    ∧ scanTransactionHeader ["target"] ["sig0"] "target" = .panicked := by
  refine ⟨by decide, ?_, ?_⟩ <;> decide

/-- C4 (counterexample): on `c4OverlapPayload` the structured decode
succeeds and the last-32-byte window (bytes 20..52) lies entirely inside the
encoded record fields (bytes 8..52) — it is the uri content. The claim says
the creator must then be the zero identifier, but the decoder returns the
window bytes, which are nonzero. -/
theorem c4_creator_window_counterexample :
    parseInstructionData c4OverlapPayload =
      .ok "CreateEvent" (.createEvent [] [] (List.replicate 32 7) (List.replicate 32 7))
    ∧ (List.replicate 32 7 : List Nat) ≠ List.replicate 32 0 := by
  constructor <;> decide

/-- C5 (refutation of truncation safety): `c5ValidCreatePayload` decodes
successfully; truncating it to 23 bytes makes the program abort (no error
value), and truncating `c5WideCreatePayload` to 50 bytes yields a successful
decode whose creator field differs from the original creator (it is the
uri length prefix plus uri content). -/
theorem c5_truncation_refuted :
    parseInstructionData c5ValidCreatePayload =
      .ok "CreateEvent" (.createEvent [0x41] [0x42] [0x43] (List.replicate 32 9))
    ∧ parseInstructionData (c5ValidCreatePayload.take 23) = .panicked
    ∧ parseInstructionData c5WideCreatePayload =
      .ok "CreateEvent"
        (.createEvent [0x41] [0x42] (List.replicate 28 0x43) (List.replicate 32 9))
    ∧ parseInstructionData (c5WideCreatePayload.take 50) =
      .ok "CreateEvent"
        (.createEvent [0x41] [0x42] (List.replicate 28 0x43)
          ([28, 0, 0, 0] ++ List.replicate 28 0x43))
    ∧ ([28, 0, 0, 0] ++ List.replicate 28 0x43 : List Nat) ≠ List.replicate 32 9 := by
  refine ⟨?_, ?_, ?_, ?_, ?_⟩ <;> decide

/-- C4 (amended): when the structured decode succeeds, the creator is taken
from the last 32 bytes of the payload exactly when the payload is at least
40 bytes long — i.e. when that window starts at or after the end of the
8-byte discriminator, NOT after the record fields (on Borsh success the
record fields always extend to the end of the payload, so the window always
overlaps them); for payload lengths 32..39 the zero identifier is returned,
and for payload lengths below 32 the program aborts. -/
theorem c4_creator_window_amended (data name symbol uri : List Nat)
    (h8 : 8 ≤ data.length)
    (hdisc : data.take 8 = CREATE_EVENT_DISCRIMINATOR)
    (hborsh : borshCreateArgs (data.drop 8) = some (name, symbol, uri)) :
    (data.length < 32 → parseInstructionData data = .panicked)
    ∧ (32 ≤ data.length →
        parseInstructionData data =
          .ok "CreateEvent" (.createEvent name symbol uri
            (if 40 ≤ data.length then sliceList data (data.length - 32) 32
             else List.replicate 32 0))) := by
  constructor
  · intro hlt
    unfold parseInstructionData
    rw [if_neg (by omega), if_pos hdisc, hborsh]
    dsimp only
    rw [if_pos hlt]
  · intro hge
    unfold parseInstructionData
    rw [if_neg (by omega), if_pos hdisc, hborsh]
    dsimp only
    rw [if_neg (by omega)]
    by_cases h40 : 40 ≤ data.length
    · rw [if_pos (show 8 ≤ data.length - 32 ∧ data.length - 32 + 32 ≤ data.length by omega),
        if_pos h40]
    · rw [if_neg (show ¬(8 ≤ data.length - 32 ∧ data.length - 32 + 32 ≤ data.length) by omega),
        if_neg h40]

theorem c4_creator_window_amended_witness :
    parseInstructionData c4WitnessPayload =
      .ok "CreateEvent" (.createEvent [] [] (List.replicate 12 7) (List.replicate 32 0)) :=
  (c4_creator_window_amended c4WitnessPayload [] [] (List.replicate 12 7)
    (by decide) (by decide) (by decide)).2 (by decide)

/-! ### Decode round-trip lemmas -/

lemma take_pre (pre rest : List Nat) (n : Nat) (h : pre.length = n) :
    (pre ++ rest).take n = pre := by
  subst h
  exact List.take_left pre rest

lemma drop_pre (pre rest : List Nat) (n : Nat) (h : pre.length = n) :
    (pre ++ rest).drop n = rest := by
  subst h
  exact List.drop_left pre rest

lemma sliceList_pre (pre mid rest : List Nat) (n k : Nat)
    (hn : pre.length = n) (hk : mid.length = k) :
    sliceList (pre ++ (mid ++ rest)) n k = mid := by
  subst hn hk
  unfold sliceList
  rw [List.drop_left pre (mid ++ rest), List.take_left mid rest]

lemma leNat_encodeU32LE (n : Nat) (h : n < 4294967296) :
    leNat (encodeU32LE n) = n := by
  simp only [encodeU32LE, leNat]
  omega

lemma leNat_encodeU64LE (n : Nat) (h : n < U64LIMIT) :
    leNat (encodeU64LE n) = n := by
  unfold U64LIMIT at h
  simp only [encodeU64LE, leNat]
  omega

lemma borshString_encode (s rest : List Nat) (hv : utf8Valid s = true)
    (hlen : s.length < 4294967296) :
    borshString (encodeString s ++ rest) = some (s, rest) := by
  have hform : encodeString s ++ rest =
      (s.length % 256) :: (s.length / 256 % 256) :: (s.length / 65536 % 256) ::
        (s.length / 16777216 % 256) :: (s ++ rest) := by
    simp [encodeString, encodeU32LE]
  rw [hform]
  unfold borshString
  dsimp only
  have hn : s.length % 256 + 256 * (s.length / 256 % 256 + 256 *
      (s.length / 65536 % 256 + 256 * (s.length / 16777216 % 256))) = s.length := by
    omega
  rw [hn, if_neg (show ¬((s ++ rest).length < s.length) by
    rw [List.length_append]; omega)]
  rw [List.take_left s rest, List.drop_left s rest, hv]
  simp

lemma manualCreateFields_encode (name symbol uri tail : List Nat)
    (hvn : utf8Valid name = true) (hvs : utf8Valid symbol = true)
    (hvu : utf8Valid uri = true)
    (hln : name.length < 4294967296) (hls : symbol.length < 4294967296)
    (hlu : uri.length < 4294967296) :
    manualCreateFields (encodeCreatePayload name symbol uri tail) =
      .ok (name, symbol, uri, 12 + name.length + 4 + symbol.length + 4 + uri.length) := by
  have hlen : (encodeCreatePayload name symbol uri tail).length =
      20 + name.length + symbol.length + uri.length + tail.length := by
    simp [encodeCreatePayload, encodeString, encodeU32LE, CREATE_EVENT_DISCRIMINATOR]
    omega
  have e1 : sliceList (encodeCreatePayload name symbol uri tail) 8 4 =
      encodeU32LE name.length := by
    rw [show encodeCreatePayload name symbol uri tail =
        CREATE_EVENT_DISCRIMINATOR ++ (encodeU32LE name.length ++
          (name ++ (encodeString symbol ++ (encodeString uri ++ tail)))) from by
      simp [encodeCreatePayload, encodeString, List.append_assoc]]
    exact sliceList_pre _ _ _ _ _ rfl rfl
  have e2 : sliceList (encodeCreatePayload name symbol uri tail) 12 name.length = name := by
    rw [show encodeCreatePayload name symbol uri tail =
        (CREATE_EVENT_DISCRIMINATOR ++ encodeU32LE name.length) ++
          (name ++ (encodeString symbol ++ (encodeString uri ++ tail))) from by
      simp [encodeCreatePayload, encodeString, List.append_assoc]]
    exact sliceList_pre _ _ _ _ _ (by simp [CREATE_EVENT_DISCRIMINATOR, encodeU32LE]) rfl
  have e3 : sliceList (encodeCreatePayload name symbol uri tail) (12 + name.length) 4 =
      encodeU32LE symbol.length := by
    rw [show encodeCreatePayload name symbol uri tail =
        (CREATE_EVENT_DISCRIMINATOR ++ encodeU32LE name.length ++ name) ++
          (encodeU32LE symbol.length ++ (symbol ++ (encodeString uri ++ tail))) from by
      simp [encodeCreatePayload, encodeString, List.append_assoc]]
    exact sliceList_pre _ _ _ _ _
      (by simp [CREATE_EVENT_DISCRIMINATOR, encodeU32LE]; omega) rfl
  have e4 : sliceList (encodeCreatePayload name symbol uri tail)
      (12 + name.length + 4) symbol.length = symbol := by
    rw [show encodeCreatePayload name symbol uri tail =
        (CREATE_EVENT_DISCRIMINATOR ++ encodeU32LE name.length ++ name ++
          encodeU32LE symbol.length) ++
          (symbol ++ (encodeString uri ++ tail)) from by
      simp [encodeCreatePayload, encodeString, List.append_assoc]]
    exact sliceList_pre _ _ _ _ _
      (by simp [CREATE_EVENT_DISCRIMINATOR, encodeU32LE]; omega) rfl
  have e5 : sliceList (encodeCreatePayload name symbol uri tail)
      (12 + name.length + 4 + symbol.length) 4 = encodeU32LE uri.length := by
    rw [show encodeCreatePayload name symbol uri tail =
        (CREATE_EVENT_DISCRIMINATOR ++ encodeU32LE name.length ++ name ++
          encodeU32LE symbol.length ++ symbol) ++
          (encodeU32LE uri.length ++ (uri ++ tail)) from by
      simp [encodeCreatePayload, encodeString, List.append_assoc]]
    exact sliceList_pre _ _ _ _ _
      (by simp [CREATE_EVENT_DISCRIMINATOR, encodeU32LE]; omega) rfl
  have e6 : sliceList (encodeCreatePayload name symbol uri tail)
      (12 + name.length + 4 + symbol.length + 4) uri.length = uri := by
    rw [show encodeCreatePayload name symbol uri tail =
        (CREATE_EVENT_DISCRIMINATOR ++ encodeU32LE name.length ++ name ++
          encodeU32LE symbol.length ++ symbol ++ encodeU32LE uri.length) ++
          (uri ++ tail) from by
      simp [encodeCreatePayload, encodeString, List.append_assoc]]
    exact sliceList_pre _ _ _ _ _
      (by simp [CREATE_EVENT_DISCRIMINATOR, encodeU32LE]; omega) rfl
  unfold manualCreateFields
  rw [if_neg (by omega)]
  rw [e1, leNat_encodeU32LE name.length hln]
  dsimp only
  rw [if_neg (by omega), e2, hvn]
  rw [if_neg (by simp)]
  rw [if_neg (by omega), e3, leNat_encodeU32LE symbol.length hls]
  rw [if_neg (by omega), e4, hvs]
  rw [if_neg (by simp)]
  rw [if_neg (by omega), e5, leNat_encodeU32LE uri.length hlu]
  rw [if_neg (by omega), e6, hvu]
  rw [if_neg (by simp)]

/-- C7: the structured encodings round-trip through the decoder. A create
payload built from `(name, symbol, uri, creator)` — discriminator, three
4-byte little-endian length-prefixed UTF-8 strings, 32-byte creator suffix —
decodes to exactly those fields (via the manual fallback, since the creator
suffix makes `try_from_slice` reject the buffer), and a buy payload built
from `(amount, cost)` decodes to exactly `(amount, cost)`. -/
theorem c7_decode_round_trip (name symbol uri creator : List Nat) (amount cost : Nat)
    (hvn : utf8Valid name = true) (hvs : utf8Valid symbol = true)
    (hvu : utf8Valid uri = true)
    (hln : name.length < 4294967296) (hls : symbol.length < 4294967296)
    (hlu : uri.length < 4294967296)
    (hcr : creator.length = 32)
    (ha : amount < U64LIMIT) (hc : cost < U64LIMIT) :
    parseInstructionData (encodeCreatePayload name symbol uri creator) =
      .ok "CreateEvent" (.createEvent name symbol uri creator)
    ∧ parseInstructionData (encodeBuyPayload amount cost) =
      .ok "Buy" (.buy amount cost) := by
  constructor
  · have hlen : (encodeCreatePayload name symbol uri creator).length =
        20 + name.length + symbol.length + uri.length + creator.length := by
      simp [encodeCreatePayload, encodeString, encodeU32LE, CREATE_EVENT_DISCRIMINATOR]
      omega
    have hdisc : (encodeCreatePayload name symbol uri creator).take 8 =
        CREATE_EVENT_DISCRIMINATOR := by
      rw [show encodeCreatePayload name symbol uri creator =
          CREATE_EVENT_DISCRIMINATOR ++ (encodeString name ++ (encodeString symbol ++
            (encodeString uri ++ creator))) from by
        simp [encodeCreatePayload, List.append_assoc]]
      exact take_pre _ _ _ rfl
    have hdrop : (encodeCreatePayload name symbol uri creator).drop 8 =
        encodeString name ++ (encodeString symbol ++ (encodeString uri ++ creator)) := by
      rw [show encodeCreatePayload name symbol uri creator =
          CREATE_EVENT_DISCRIMINATOR ++ (encodeString name ++ (encodeString symbol ++
            (encodeString uri ++ creator))) from by
        simp [encodeCreatePayload, List.append_assoc]]
      exact drop_pre _ _ _ rfl
    have hborsh : borshCreateArgs ((encodeCreatePayload name symbol uri creator).drop 8) =
        none := by
      rw [hdrop]
      unfold borshCreateArgs
      rw [borshString_encode name _ hvn hln]
      dsimp only
      rw [borshString_encode symbol _ hvs hls]
      dsimp only
      rw [borshString_encode uri creator hvu hlu]
      dsimp only
      rw [if_neg (show ¬(creator = []) by
        intro hnil
        rw [hnil] at hcr
        simp at hcr)]
    have e7 : sliceList (encodeCreatePayload name symbol uri creator)
        (12 + name.length + 4 + symbol.length + 4 + uri.length) 32 = creator := by
      rw [show encodeCreatePayload name symbol uri creator =
          (CREATE_EVENT_DISCRIMINATOR ++ encodeU32LE name.length ++ name ++
            encodeU32LE symbol.length ++ symbol ++ encodeU32LE uri.length ++ uri) ++
            (creator ++ []) from by
        simp [encodeCreatePayload, encodeString, List.append_assoc]]
      exact sliceList_pre _ _ _ _ _
        (by simp [CREATE_EVENT_DISCRIMINATOR, encodeU32LE]; omega) hcr
    unfold parseInstructionData
    rw [if_neg (by omega), if_pos hdisc, hborsh]
    rw [manualCreateFields_encode name symbol uri creator hvn hvs hvu hln hls hlu]
    dsimp only
    rw [if_neg (by omega), e7]
  · have hdisc : (encodeBuyPayload amount cost).take 8 = BUY_EVENT_DISCRIMINATOR := by
      rw [show encodeBuyPayload amount cost =
          BUY_EVENT_DISCRIMINATOR ++ (encodeU64LE amount ++ encodeU64LE cost) from by
        simp [encodeBuyPayload, List.append_assoc]]
      exact take_pre _ _ _ rfl
    have hdrop : (encodeBuyPayload amount cost).drop 8 =
        encodeU64LE amount ++ encodeU64LE cost := by
      rw [show encodeBuyPayload amount cost =
          BUY_EVENT_DISCRIMINATOR ++ (encodeU64LE amount ++ encodeU64LE cost) from by
        simp [encodeBuyPayload, List.append_assoc]]
      exact drop_pre _ _ _ rfl
    have hlen : (encodeBuyPayload amount cost).length = 24 := by
      simp [encodeBuyPayload, encodeU64LE, BUY_EVENT_DISCRIMINATOR]
    have hborsh : borshBuyArgs ((encodeBuyPayload amount cost).drop 8) =
        some (amount, cost) := by
      rw [hdrop]
      unfold borshBuyArgs
      rw [if_pos (by simp [encodeU64LE])]
      rw [take_pre (encodeU64LE amount) (encodeU64LE cost) 8 rfl,
        drop_pre (encodeU64LE amount) (encodeU64LE cost) 8 rfl]
      rw [show (encodeU64LE cost).take 8 = encodeU64LE cost from by
        rw [show (8 : Nat) = (encodeU64LE cost).length from rfl, List.take_length]]
      rw [leNat_encodeU64LE amount ha, leNat_encodeU64LE cost hc]
    unfold parseInstructionData
    rw [if_neg (by omega)]
    rw [if_neg (show ¬((encodeBuyPayload amount cost).take 8 = CREATE_EVENT_DISCRIMINATOR) by
      rw [hdisc]; decide)]
    rw [if_pos hdisc, hborsh]

theorem c7_decode_round_trip_witness :
    parseInstructionData (encodeCreatePayload [0x61] [0x62] [0x63] (List.replicate 32 5)) =
      .ok "CreateEvent" (.createEvent [0x61] [0x62] [0x63] (List.replicate 32 5))
    ∧ parseInstructionData (encodeBuyPayload 1000000 2000000000) =
      .ok "Buy" (.buy 1000000 2000000000) :=
  c7_decode_round_trip [0x61] [0x62] [0x63] (List.replicate 32 5) 1000000 2000000000
    (by decide) (by decide) (by decide) (by decide) (by decide) (by decide)
    (by decide) (by decide) (by decide)

/-! ### Scheduler lemmas -/

lemma zadd_key_eq (zs : List (String × Nat)) (member : String) (score : Nat) :
    ∀ p ∈ zadd zs member score, p.1 = member → p = (member, score) := by
  intro p hp hkey
  unfold zadd at hp
  by_cases hb : zs.any (fun q => q.1 == member) = true
  · rw [if_pos hb, List.mem_map] at hp
    obtain ⟨q, hq, hfq⟩ := hp
    by_cases hq1 : (q.1 == member) = true
    · rw [← hfq]
      simp [hq1]
    · exfalso
      rw [if_neg hq1] at hfq
      apply hq1
      rw [← hfq] at hkey
      rw [hkey]
      simp
  · rw [if_neg hb, List.mem_append] at hp
    cases hp with
    | inl hin =>
        exfalso
        exact hb (List.any_eq_true.mpr ⟨p, hin, by rw [hkey]; simp⟩)
    | inr hx => simpa using hx

lemma zadd_self_mem (zs : List (String × Nat)) (member : String) (score : Nat) :
    (member, score) ∈ zadd zs member score := by
  unfold zadd
  by_cases hb : zs.any (fun q => q.1 == member) = true
  · rw [if_pos hb, List.mem_map]
    rw [List.any_eq_true] at hb
    obtain ⟨q, hq, hq1⟩ := hb
    exact ⟨q, hq, by simp at hq1; simp [hq1]⟩
  · rw [if_neg hb]
    simp

lemma zadd_map_fst_nodup (zs : List (String × Nat)) (member : String) (score : Nat)
    (h : (zs.map Prod.fst).Nodup) :
    ((zadd zs member score).map Prod.fst).Nodup := by
  unfold zadd
  by_cases hb : zs.any (fun q => q.1 == member) = true
  · rw [if_pos hb, List.map_map]
    have hcong : zs.map (Prod.fst ∘ fun p => if p.1 == member then (member, score) else p) =
        zs.map Prod.fst := by
      apply List.map_congr_left
      intro p _
      by_cases hp1 : (p.1 == member) = true
      · have heq : p.1 = member := eq_of_beq hp1
        simp [Function.comp_apply, heq]
      · have hne : p.1 ≠ member := by simpa using hp1
        simp [Function.comp_apply, hne]
    rw [hcong]
    exact h
  · rw [if_neg hb, List.map_append]
    refine List.Nodup.append h (List.nodup_singleton _) ?_
    intro a ha hamem
    simp only [List.map, List.mem_singleton] at hamem
    subst hamem
    rw [List.mem_map] at ha
    obtain ⟨p, hp, hfst⟩ := ha
    exact hb (List.any_eq_true.mpr ⟨p, hp, by rw [hfst]; simp⟩)

lemma mem_zrangebyscore (zs : List (String × Nat)) (lo hi : Nat) (x : String) :
    x ∈ zrangebyscore zs lo hi ↔ ∃ p ∈ zs, p.1 = x ∧ lo ≤ p.2 ∧ p.2 ≤ hi := by
  unfold zrangebyscore
  constructor
  · intro hx
    rw [List.mem_map] at hx
    obtain ⟨p, hp, hfst⟩ := hx
    rw [List.mem_filter] at hp
    have hcond := hp.2
    simp only [Bool.and_eq_true, decide_eq_true_eq] at hcond
    exact ⟨p, hp.1, hfst, hcond.1, hcond.2⟩
  · rintro ⟨p, hp, hfst, hlo, hhi⟩
    rw [List.mem_map]
    refine ⟨p, ?_, hfst⟩
    rw [List.mem_filter]
    exact ⟨hp, by simp [hlo, hhi]⟩

lemma zrange_sublist_keys (zs : List (String × Nat)) (lo hi : Nat) :
    (zrangebyscore zs lo hi).Sublist (zs.map Prod.fst) := by
  unfold zrangebyscore
  exact (List.filter_sublist zs).map Prod.fst

lemma mem_getAndRemove_fst (st : RedisState) (now : Nat) (x : String)
    (h : x ∈ (getAndRemoveMintsToSell st now).1) :
    x ∈ zrangebyscore st.mintsToSell 0 now := by
  unfold getAndRemoveMintsToSell at h
  dsimp only at h
  split at h
  · simp at h
  · exact h

lemma zrem_key_ne (zs : List (String × Nat)) (member : String) :
    ∀ p ∈ zrem zs member, p.1 ≠ member := by
  intro p hp
  unfold zrem at hp
  rw [List.mem_filter] at hp
  simpa using hp.2

lemma foldl_zrem_subset (l : List String) (zs : List (String × Nat)) :
    l.foldl (fun z m => zrem z m) zs ⊆ zs := by
  induction l generalizing zs with
  | nil => exact fun _ hp => hp
  | cons m rest ih =>
      intro p hp
      have h2 := ih (zrem zs m) hp
      unfold zrem at h2
      exact (List.mem_filter.mp h2).1

lemma foldl_zrem_key_ne (l : List String) (zs : List (String × Nat)) (token : String)
    (h : token ∈ l) :
    ∀ p ∈ l.foldl (fun z m => zrem z m) zs, p.1 ≠ token := by
  induction l generalizing zs with
  | nil => simp at h
  | cons m rest ih =>
      intro p hp
      by_cases hm : token ∈ rest
      · exact ih (zrem zs m) hm p hp
      · have hmt : m = token := by
          rcases List.mem_cons.mp h with h1 | h1
          · exact h1.symm
          · exact absurd h1 hm
        subst hmt
        exact zrem_key_ne _ _ p (foldl_zrem_subset rest (zrem zs m) hp)

lemma find?_append_single {α : Type} (l : List α) (pred : α → Bool) (x : α)
    (hnon : ∀ p ∈ l, pred p = false) (hx : pred x = true) :
    (l ++ [x]).find? pred = some x := by
  induction l with
  | nil => simp [List.find?, hx]
  | cons q rest ih =>
      have hq := hnon q (List.mem_cons_self q rest)
      rw [List.cons_append, List.find?_cons_of_neg _ (by simp [hq])]
      exact ih (fun p hp => hnon p (List.mem_cons_of_mem q hp))

lemma find?_map_replace (h : List (String × String)) (field value : String)
    (hany : h.any (fun p => p.1 == field) = true) :
    (h.map (fun p => if p.1 == field then (field, value) else p)).find?
      (fun p => p.1 == field) = some (field, value) := by
  induction h with
  | nil => simp at hany
  | cons q rest ih =>
      by_cases hq : (q.1 == field) = true
      · simp only [List.map, hq, if_true]
        rw [List.find?_cons_of_pos _ (by simp)]
      · simp only [List.map, hq, if_false]
        rw [List.find?_cons_of_neg _ (by simp [hq])]
        apply ih
        simp only [List.any_cons, hq, Bool.false_or] at hany
        exact hany

lemma hget_hset_self (h : List (String × String)) (field value : String) :
    hget (hset h field value) field = some value := by
  unfold hget hset
  by_cases hb : h.any (fun p => p.1 == field) = true
  · rw [if_pos hb, find?_map_replace h field value hb]
    rfl
  · rw [if_neg hb]
    rw [find?_append_single h _ (field, value) ?_ (by simp)]
    · rfl
    · intro p hp
      rw [List.any_eq_true] at hb
      push_neg at hb
      exact Bool.not_eq_true _ |>.mp (hb p hp)

/-! ### Claim theorems: delayed-sell scheduler -/

/-- C2 (counterexample): schedule token "tok" with amount 5 and delay 100 at
time 10; claim at time 120. The token is released, but its amount record is
still present in `mint_amounts` afterwards — the claim operation
(`get_and_remove_mints_to_sell`) never touches the amount table, contrary to
the claim that it removes both. -/
theorem c2_counterexample :
    (getAndRemoveMintsToSell (storeMintWithAmount ⟨[], []⟩ "tok" 5 100 10) 120).1 = ["tok"]
    ∧ hget (getAndRemoveMintsToSell
        (storeMintWithAmount ⟨[], []⟩ "tok" 5 100 10) 120).2.mintAmounts "tok" =
      some "5" := by
  constructor <;> decide

/-- C2 (amended): for a scheduled entry, a claim strictly before the due
time does not release the token; a claim at or after the due time releases
it exactly once and removes its entry from the due-time index, so any later
claim never releases it again — but the claim operation does NOT remove the
amount record: it is still in the amount table afterwards (it is removed
only by the separate, uncalled `remove_sold_mint` operation). The sorted-set
key-uniqueness invariant of the store is the `hnodup` hypothesis. -/
theorem c2_scheduler_amended (st : RedisState) (token : String)
    (amount delay now0 t : Nat)
    (hnodup : (st.mintsToSell.map Prod.fst).Nodup) :
    (t < now0 + delay →
      token ∉ (getAndRemoveMintsToSell (storeMintWithAmount st token amount delay now0) t).1)
    ∧ (now0 + delay ≤ t →
        (getAndRemoveMintsToSell (storeMintWithAmount st token amount delay now0) t).1.count
            token = 1
        ∧ (∀ u, token ∉
            (getAndRemoveMintsToSell
              (getAndRemoveMintsToSell
                (storeMintWithAmount st token amount delay now0) t).2 u).1)
        ∧ hget (getAndRemoveMintsToSell
              (storeMintWithAmount st token amount delay now0) t).2.mintAmounts token =
            some (toString amount)) := by
  have hkey := zadd_key_eq st.mintsToSell token (now0 + delay)
  have hmem := zadd_self_mem st.mintsToSell token (now0 + delay)
  have hnd1 := zadd_map_fst_nodup st.mintsToSell token (now0 + delay) hnodup
  constructor
  · intro ht hin
    have hzr := mem_getAndRemove_fst _ _ _ hin
    rw [mem_zrangebyscore] at hzr
    obtain ⟨p, hp, hfst, _, hhi⟩ := hzr
    have := hkey p hp hfst
    rw [this] at hhi
    omega
  · intro ht
    have hmzr : token ∈ zrangebyscore (zadd st.mintsToSell token (now0 + delay)) 0 t := by
      rw [mem_zrangebyscore]
      exact ⟨(token, now0 + delay), hmem, rfl, Nat.zero_le _, ht⟩
    have hne : (zrangebyscore (zadd st.mintsToSell token (now0 + delay)) 0 t).isEmpty =
        false := by
      rcases hzr : zrangebyscore (zadd st.mintsToSell token (now0 + delay)) 0 t with _ | ⟨a, l⟩
      · rw [hzr] at hmzr
        simp at hmzr
      · rfl
    have hres : getAndRemoveMintsToSell (storeMintWithAmount st token amount delay now0) t =
        (zrangebyscore (zadd st.mintsToSell token (now0 + delay)) 0 t,
         ⟨(zrangebyscore (zadd st.mintsToSell token (now0 + delay)) 0 t).foldl
            (fun z m => zrem z m) (zadd st.mintsToSell token (now0 + delay)),
          hset st.mintAmounts token (toString amount)⟩) := by
      unfold getAndRemoveMintsToSell storeMintWithAmount
      dsimp only
      rw [if_neg (by rw [hne]; simp)]
    refine ⟨?_, ?_, ?_⟩
    · rw [hres]
      dsimp only
      have hsub := (zrange_sublist_keys (zadd st.mintsToSell token (now0 + delay)) 0 t).nodup
        hnd1
      have hle := List.nodup_iff_count_le_one.mp hsub token
      have hpos : 0 < (zrangebyscore (zadd st.mintsToSell token (now0 + delay)) 0 t).count
          token := List.count_pos_iff.mpr hmzr
      omega
    · intro u hin
      have hzr2 := mem_getAndRemove_fst _ _ _ hin
      rw [hres] at hzr2
      dsimp only at hzr2
      rw [mem_zrangebyscore] at hzr2
      obtain ⟨p, hp, hfst, _, _⟩ := hzr2
      exact foldl_zrem_key_ne _ _ token hmzr p hp hfst
    · rw [hres]
      exact hget_hset_self st.mintAmounts token (toString amount)

theorem c2_scheduler_amended_witness :
    (getAndRemoveMintsToSell (storeMintWithAmount ⟨[], []⟩ "mint1" 42 50 60) 200).1.count
      "mint1" = 1 :=
  ((c2_scheduler_amended ⟨[], []⟩ "mint1" 42 50 60 200 (by decide)).2 (by decide)).1

/-! ### Claim theorems: blockhash cache -/

/-- C9: a `get` call with a cached anchor whose age is strictly below the
TTL returns that anchor unchanged with zero fetches; otherwise (no cache or
expired) it performs exactly one fetch, stores the fetched anchor with the
current timestamp and returns it; consequently two calls within the TTL
starting from an empty cache return the identical anchor with exactly one
fetch in total, and a call after TTL expiry performs exactly one new
fetch. -/
theorem c9_cache_freshness (maxAge : Nat) :
    (∀ h ts now fresh, now - ts < maxAge →
      getLatestBlockhash maxAge (some (h, ts)) now fresh = ⟨h, some (h, ts), 0⟩)
    ∧ (∀ h ts now fresh, maxAge ≤ now - ts →
      getLatestBlockhash maxAge (some (h, ts)) now fresh = ⟨fresh, some (fresh, now), 1⟩)
    ∧ (∀ now fresh, getLatestBlockhash maxAge none now fresh = ⟨fresh, some (fresh, now), 1⟩)
    ∧ (∀ t0 t1 a b, t1 - t0 < maxAge →
        (getLatestBlockhash maxAge none t0 a).value = a
        ∧ (getLatestBlockhash maxAge (getLatestBlockhash maxAge none t0 a).state t1 b).value = a
        ∧ (getLatestBlockhash maxAge none t0 a).fetches +
            (getLatestBlockhash maxAge (getLatestBlockhash maxAge none t0 a).state t1 b).fetches
            = 1)
    ∧ (∀ t0 t2 a c, maxAge ≤ t2 - t0 →
        (getLatestBlockhash maxAge (some (a, t0)) t2 c).fetches = 1
        ∧ (getLatestBlockhash maxAge (some (a, t0)) t2 c).value = c) := by
  refine ⟨fun h ts now fresh hlt => ?_, fun h ts now fresh hge => ?_, fun now fresh => rfl,
    fun t0 t1 a b hlt => ?_, fun t0 t2 a c hge => ?_⟩
  · unfold getLatestBlockhash
    dsimp only
    rw [if_pos hlt]
  · unfold getLatestBlockhash
    dsimp only
    rw [if_neg (by omega)]
  · refine ⟨rfl, ?_, ?_⟩ <;> simp [getLatestBlockhash, hlt]
  · constructor <;> simp [getLatestBlockhash, hge, Nat.not_lt.mpr hge]

theorem c9_cache_freshness_witness :
    getLatestBlockhash 500 (some (77, 100)) 400 88 = ⟨77, some (77, 100), 0⟩ :=
  (c9_cache_freshness 500).1 77 100 400 88 (by decide)

end Sniper
